import Mathlib

/-!
Verification development for `week1/tools.py`: the dataset indexer
(`create_image_lists` with its SHA-1 based train/validation split), the
configuration identifier builder (`Config`), the learning-rate scheduler
(`lr_scheduler`), the error-swallowing generator wrapper (`except_catcher`),
and the batch iterator (`ImageListIterator`, `get_image_path`).

Machine integers are modelled as `Nat` with explicit `% 2^32` where the
source's 32-bit arithmetic overflows; percentages and learning rates are
modelled in `ℚ` (the source uses Python floats; for the integer-valued
percentages compared here the rational and double computations agree, and for
the scheduler only exact field arithmetic is used).
-/

namespace Tools

/-! ### UTF-8 encoding (`str.encode('utf-8')` inside `as_bytes`) -/

/-- UTF-8 encoding of a single Unicode code point, as a list of byte values. -/
def utf8EncodeCodepoint (c : Nat) : List Nat :=
  if c < 0x80 then [c]
  else if c < 0x800 then [0xC0 + c / 64, 0x80 + c % 64]
  else if c < 0x10000 then
    [0xE0 + c / 4096, 0x80 + (c / 64) % 64, 0x80 + c % 64]
  else
    [0xF0 + c / 262144, 0x80 + (c / 4096) % 64, 0x80 + (c / 64) % 64,
     0x80 + c % 64]

/-- The function `as_bytes` from tools.py applied to a `str`: UTF-8 bytes of the text. -/
def as_bytes (s : String) : List Nat :=
  (s.data.map fun c => utf8EncodeCodepoint c.toNat).flatten

/-! ### SHA-1 (`hashlib.sha1`), on byte lists, 32-bit words as `Nat` -/

/-- Left rotation of a 32-bit word. -/
def rotl (k n : Nat) : Nat :=
  ((n <<< k) % 4294967296) ||| (n >>> (32 - k))

/-- Big-endian 8-byte encoding of a (< 2^64) length-in-bits value. -/
def beBytes8 (n : Nat) : List Nat :=
  [(n >>> 56) % 256, (n >>> 48) % 256, (n >>> 40) % 256, (n >>> 32) % 256,
   (n >>> 24) % 256, (n >>> 16) % 256, (n >>> 8) % 256, n % 256]

/-- SHA-1 padding: append 0x80, zeros to 56 mod 64 bytes, then the 64-bit
big-endian bit length. -/
def sha1Pad (msg : List Nat) : List Nat :=
  msg ++ [0x80] ++ List.replicate ((119 - msg.length % 64) % 64) 0 ++
    beBytes8 (msg.length * 8)

/-- Group bytes into big-endian 32-bit words. -/
def bytesToWords : List Nat → List Nat
  | a :: b :: c :: d :: rest => (((a * 256 + b) * 256 + c) * 256 + d) :: bytesToWords rest
  | _ => []

/-- Split a word list into 16-word chunks. -/
def chunk16 : List Nat → List (List Nat)
  | w0 :: w1 :: w2 :: w3 :: w4 :: w5 :: w6 :: w7 ::
    w8 :: w9 :: w10 :: w11 :: w12 :: w13 :: w14 :: w15 :: rest =>
      [w0, w1, w2, w3, w4, w5, w6, w7, w8, w9, w10, w11, w12, w13, w14, w15] ::
        chunk16 rest
  | _ => []

/-- Message-schedule expansion, building the 80 words in reverse:
`acc` holds the words produced so far, most recent first. -/
def sha1ExpandAux : Nat → List Nat → List Nat
  | 0, acc => acc
  | n + 1, acc =>
      let x := rotl 1 ((((acc.getD 2 0) ^^^ (acc.getD 7 0)) ^^^
                        (acc.getD 13 0)) ^^^ (acc.getD 15 0))
      sha1ExpandAux n (x :: acc)

/-- The 80-entry message schedule of one 16-word chunk. -/
def sha1Expand (chunk : List Nat) : List Nat :=
  (sha1ExpandAux 64 chunk.reverse).reverse

/-- SHA-1 working state: (a, b, c, d, e). -/
abbrev Sha1State := Nat × Nat × Nat × Nat × Nat

/-- One SHA-1 round, round index `i`, schedule word `wi`. -/
def sha1Round (i : Nat) (st : Sha1State) (wi : Nat) : Sha1State :=
  let (a, b, c, d, e) := st
  let f :=
    if i < 20 then (b &&& c) ||| ((b ^^^ 4294967295) &&& d)
    else if i < 40 then (b ^^^ c) ^^^ d
    else if i < 60 then ((b &&& c) ||| (b &&& d)) ||| (c &&& d)
    else (b ^^^ c) ^^^ d
  let k :=
    if i < 20 then 0x5A827999
    else if i < 40 then 0x6ED9EBA1
    else if i < 60 then 0x8F1BBCDC
    else 0xCA62C1D6
  let temp := (rotl 5 a + f + e + k + wi) % 4294967296
  (temp, a, rotl 30 b, c, d)

/-- Run the 80 rounds over the schedule, starting at round index `i`. -/
def sha1Rounds : Nat → List Nat → Sha1State → Sha1State
  | _, [], st => st
  | i, wi :: rest, st => sha1Rounds (i + 1) rest (sha1Round i st wi)

/-- Process one 16-word chunk, updating the hash state. -/
def sha1ProcessChunk (h : Sha1State) (chunk : List Nat) : Sha1State :=
  let (a, b, c, d, e) := sha1Rounds 0 (sha1Expand chunk) h
  ((h.1 + a) % 4294967296, (h.2.1 + b) % 4294967296,
   (h.2.2.1 + c) % 4294967296, (h.2.2.2.1 + d) % 4294967296,
   (h.2.2.2.2 + e) % 4294967296)

/-- SHA-1 of a byte list, as the five 32-bit state words. -/
def sha1Words (msg : List Nat) : Sha1State :=
  (chunk16 (bytesToWords (sha1Pad msg))).foldl sha1ProcessChunk
    (0x67452301, 0xEFCDAB89, 0x98BADCFE, 0x10325476, 0xC3D2E1F0)

/-- Lower-case hex character for a value < 16. -/
def hexDigitChar (n : Nat) : Char :=
  if n < 10 then Char.ofNat (48 + n) else Char.ofNat (87 + n)

/-- Fixed-width 8-digit lower-case hex rendering of a 32-bit word. -/
def word8Hex (n : Nat) : List Char :=
  (List.range 8).map fun i => hexDigitChar ((n >>> (28 - 4 * i)) % 16)

/-- The digest `hashlib.sha1(...).hexdigest()`: the 40-character lower-case hex digest. -/
def sha1Hexdigest (msg : List Nat) : String :=
  let (a, b, c, d, e) := sha1Words msg
  String.mk (word8Hex a ++ word8Hex b ++ word8Hex c ++ word8Hex d ++ word8Hex e)

/-- Value of a hex digit character (`int(·, 16)` per-digit). -/
def hexDigitVal (c : Char) : Nat :=
  if c.toNat ≤ 57 then c.toNat - 48
  else if c.toNat ≤ 70 then c.toNat - 55
  else c.toNat - 87

/-- Python `int(s, 16)` on a well-formed hex string. -/
def parseHex (s : String) : Nat :=
  s.data.foldl (fun acc c => acc * 16 + hexDigitVal c) 0

/-! ### Dataset indexer: `create_image_lists` -/

/-- The cap `MAX_NUM_IMAGES_PER_CLASS = 2 ** 27 - 1` (~134M). -/
def MAX_NUM_IMAGES_PER_CLASS : Nat := 2 ^ 27 - 1

/-- The set `VALID_IMAGE_FORMATS = frozenset(['jpg', 'jpeg', 'JPG', 'JPEG'])`.
Iteration order over a Python frozenset is unspecified; it is modelled in the
literal's order (none of the verified properties depend on the order). -/
def VALID_IMAGE_FORMATS : List String := ["jpg", "jpeg", "JPG", "JPEG"]

/-- Python `os.path.basename`: the part after the last `/` (POSIX). -/
def basename (p : String) : String :=
  String.mk ((p.data.reverse.takeWhile (· != '/')).reverse)

/-- The per-file hash percentage of `create_image_lists`:
`(int(hashlib.sha1(as_bytes(base_name)).hexdigest(), 16)
   % (MAX_NUM_IMAGES_PER_CLASS + 1)) * (100.0 / MAX_NUM_IMAGES_PER_CLASS)`,
in exact rational arithmetic.  (The source computes the scaling in IEEE
doubles; for the modulus 2^27 and the integer percentages used by callers the
double and exact comparisons against `validation_pct` agree, the exact value
being at distance ≥ 100/(2^27·(2^27−1)) from any integer it is not equal to,
far above the double rounding error.) -/
def hash_pct (base_name : String) : ℚ :=
  ((parseHex (sha1Hexdigest (as_bytes base_name)) % (MAX_NUM_IMAGES_PER_CLASS + 1) : Nat) : ℚ) *
    (100 / (MAX_NUM_IMAGES_PER_CLASS : ℚ))

/-- Whether `suf` is a suffix of `l` (decidable, via reversed take). -/
def hasSuffix (suf l : List Char) : Bool :=
  l.reverse.take suf.length == suf.reverse

/-- Whether `glob.glob(os.path.join(dir, '*.' + ext))` matches entry `e` of the
directory: `*` matches any run of characters except a name starting with `.`
(glob hides dot-files), so `e` matches iff it does not start with `.` and
ends with `"." ++ ext` (case-sensitive, POSIX). -/
def globMatch (ext : String) (e : String) : Bool :=
  (e.data.head? != some '.') && hasSuffix ("." ++ ext).data e.data

/-- The `file_list` collected for one class directory: for each accepted
extension, the matching entries as full paths `image_dir/dir_name/entry`
(the source's `glob.glob(os.path.join(image_dir, dir_name, '*.' + ext))`). -/
def fileListFor (image_dir dir_name : String) (entries : List String) : List String :=
  VALID_IMAGE_FORMATS.flatMap fun ext =>
    (entries.filter (globMatch ext)).map fun e =>
      (image_dir ++ "/" ++ dir_name ++ "/") ++ e

/-- ASCII model of `str.lower` per character. -/
def lowerChar (c : Char) : Char :=
  if 65 ≤ c.toNat ∧ c.toNat ≤ 90 then Char.ofNat (c.toNat + 32) else c

/-- Is `c` in `[a-z0-9]` (the complement of `re.sub`'s class, post-lower)? -/
def isLowerAlnum (c : Char) : Bool :=
  (97 ≤ c.toNat && c.toNat ≤ 122) || (48 ≤ c.toNat && c.toNat ≤ 57)

/-- The substitution `re.sub` of `[^a-z0-9]+` by a space: collapse each run of characters outside
`[a-z0-9]` to a single space.  `prevSep` records whether the previous
character was part of such a run. -/
def collapseRuns : Bool → List Char → List Char
  | _, [] => []
  | prevSep, c :: rest =>
    if isLowerAlnum c then c :: collapseRuns false rest
    else if prevSep then collapseRuns true rest
    else ' ' :: collapseRuns true rest

/-- The label `label_name = re.sub` of non-alphanumeric runs by a space over `dir_name.lower()`. -/
def label_of (dir_name : String) : String :=
  String.mk (collapseRuns false (dir_name.data.map lowerChar))

/-- One walked subdirectory: `name` is `os.path.basename(sub_dir)`, and
`entries` is the listing of `<image_dir>/<name>` that the globs search
(empty when that path does not exist, as `glob.glob` then finds nothing). -/
structure SubDir where
  name : String
  entries : List String
deriving DecidableEq, Repr

/-- The filesystem as seen by `create_image_lists`: whether
`os.path.isdir(image_dir)` holds, and the walked subdirectories
(`[x[0] for x in os.walk(image_dir)][1:]`, root excluded as in the source). -/
structure FileSystem where
  isDir : Bool
  subDirs : List SubDir
deriving DecidableEq, Repr

/-- One value of the returned dictionary:
`{'dir': dir_name, 'training': ..., 'validation': ...}`. -/
structure ClassLists where
  dir : String
  training : List String
  validation : List String
deriving DecidableEq, Repr

/-- The returned `image_lists` dictionary, as an insertion-ordered
association list with Python-dict overwrite semantics. -/
abbrev ImageDict := List (String × ClassLists)

/-- Python dict assignment `d[k] = v`: replace in place, else append. -/
def dictInsert : ImageDict → String → ClassLists → ImageDict
  | [], k, v => [(k, v)]
  | (k', v') :: rest, k, v =>
      if k' = k then (k, v) :: rest else (k', v') :: dictInsert rest k v

/-- The error taxonomy of the spec.  `notFound` (the spec's `NotFoundError`)
is raised by the source as `ValueError("Image directory {} not found.")`. -/
inductive ToolsError where
  | notFound (msg : String)
deriving DecidableEq, Repr

/-- The per-class partition loop of `create_image_lists`:
`for file_name in file_list:` take `base_name = os.path.basename(file_name)`
and append it to `validation_images` when `hash_pct < validation_pct`, else
to `training_images`.  Returns `(training_images, validation_images)`. -/
def splitFiles (validation_pct : ℚ) : List String → List String × List String
  | [] => ([], [])
  | f :: rest =>
      let s := splitFiles validation_pct rest
      if hash_pct (basename f) < validation_pct then (s.1, basename f :: s.2)
      else (basename f :: s.1, s.2)

/-- The body of the `for sub_dir in sub_dirs_without_root:` loop.  The
`warnings.warn` calls for small (< 20) and over-cap classes have no effect on
the result and are omitted; the empty-`file_list` branch `continue`s. -/
def processSubDir (image_dir : String) (validation_pct : ℚ)
    (acc : ImageDict) (sd : SubDir) : ImageDict :=
  if sd.name = image_dir then acc
  else
    let file_list := fileListFor image_dir sd.name sd.entries
    if file_list.isEmpty then acc
    else
      let s := splitFiles validation_pct file_list
      dictInsert acc (label_of sd.name) ⟨sd.name, s.1, s.2⟩

/-- The indexer `create_image_lists(image_dir, validation_pct)`. -/
def create_image_lists (fs : FileSystem) (image_dir : String)
    (validation_pct : ℚ) : Except ToolsError ImageDict :=
  if !fs.isDir then
    Except.error (ToolsError.notFound
      ("Image directory " ++ image_dir ++ " not found."))
  else
    Except.ok (fs.subDirs.foldl (processSubDir image_dir validation_pct) [])

/-! ### Lemmas about the partition loop -/

theorem splitFiles_validation_lt (p : ℚ) :
    ∀ (fl : List String) (b : String), b ∈ (splitFiles p fl).2 → hash_pct b < p := by
  intro fl
  induction fl with
  | nil => intro b hb; simp [splitFiles] at hb
  | cons f rest ih =>
    intro b hb
    by_cases h : hash_pct (basename f) < p
    · simp only [splitFiles, if_pos h] at hb
      rcases List.mem_cons.mp hb with hb | hb
      · exact hb ▸ h
      · exact ih b hb
    · simp only [splitFiles, if_neg h] at hb
      exact ih b hb

theorem splitFiles_training_not_lt (p : ℚ) :
    ∀ (fl : List String) (b : String), b ∈ (splitFiles p fl).1 → ¬ hash_pct b < p := by
  intro fl
  induction fl with
  | nil => intro b hb; simp [splitFiles] at hb
  | cons f rest ih =>
    intro b hb
    by_cases h : hash_pct (basename f) < p
    · simp only [splitFiles, if_pos h] at hb
      exact ih b hb
    · simp only [splitFiles, if_neg h] at hb
      rcases List.mem_cons.mp hb with hb | hb
      · exact hb ▸ h
      · exact ih b hb

theorem splitFiles_mem_of_mem (p : ℚ) :
    ∀ (fl : List String) (f : String), f ∈ fl →
      (hash_pct (basename f) < p → basename f ∈ (splitFiles p fl).2) ∧
      (¬ hash_pct (basename f) < p → basename f ∈ (splitFiles p fl).1) := by
  intro fl
  induction fl with
  | nil => intro f hf; simp at hf
  | cons g rest ih =>
    intro f hf
    rcases List.mem_cons.mp hf with rfl | hf
    · refine ⟨fun h => ?_, fun h => ?_⟩
      · simp only [splitFiles, if_pos h]; exact List.mem_cons_self _ _
      · simp only [splitFiles, if_neg h]; exact List.mem_cons_self _ _
    · refine ⟨fun h => ?_, fun h => ?_⟩
      · by_cases hg : hash_pct (basename g) < p
        · simp only [splitFiles, if_pos hg]
          exact List.mem_cons_of_mem _ ((ih f hf).1 h)
        · simp only [splitFiles, if_neg hg]
          exact (ih f hf).1 h
      · by_cases hg : hash_pct (basename g) < p
        · simp only [splitFiles, if_pos hg]
          exact (ih f hf).2 h
        · simp only [splitFiles, if_neg hg]
          exact List.mem_cons_of_mem _ ((ih f hf).2 h)

theorem mem_dictInsert :
    ∀ {d : ImageDict} {k : String} {v : ClassLists} {x : String × ClassLists},
      x ∈ dictInsert d k v → x ∈ d ∨ x = (k, v) := by
  intro d
  induction d with
  | nil => intro k v x h; simp [dictInsert] at h; right; exact h
  | cons y rest ih =>
    intro k v x h
    obtain ⟨k', v'⟩ := y
    by_cases hk : k' = k
    · simp only [dictInsert, if_pos hk] at h
      rcases List.mem_cons.mp h with rfl | h
      · right; rfl
      · left; exact List.mem_cons_of_mem _ h
    · simp only [dictInsert, if_neg hk] at h
      rcases List.mem_cons.mp h with rfl | h
      · left; exact List.mem_cons_self _ _
      · rcases ih h with h | h
        · left; exact List.mem_cons_of_mem _ h
        · right; exact h

/-- Every entry of the dictionary built by `create_image_lists` carries the
training/validation pair produced by `splitFiles` on some file list. -/
def GoodEntry (p : ℚ) (x : String × ClassLists) : Prop :=
  ∃ fl : List String,
    x.2.training = (splitFiles p fl).1 ∧ x.2.validation = (splitFiles p fl).2

theorem foldl_processSubDir_good (image_dir : String) (p : ℚ) :
    ∀ (sds : List SubDir) (acc : ImageDict),
      (∀ x ∈ acc, GoodEntry p x) →
      ∀ x ∈ sds.foldl (processSubDir image_dir p) acc, GoodEntry p x := by
  intro sds
  induction sds with
  | nil => intro acc hacc x hx; exact hacc x (by simpa using hx)
  | cons sd rest ih =>
    intro acc hacc x hx
    rw [List.foldl_cons] at hx
    refine ih _ ?_ x hx
    intro y hy
    unfold processSubDir at hy
    by_cases h1 : sd.name = image_dir
    · rw [if_pos h1] at hy; exact hacc y hy
    · rw [if_neg h1] at hy
      by_cases h2 : (fileListFor image_dir sd.name sd.entries).isEmpty
      · simp only [if_pos h2] at hy; exact hacc y hy
      · simp only [if_neg h2] at hy
        rcases mem_dictInsert hy with h | h
        · exact hacc y h
        · subst h
          exact ⟨fileListFor image_dir sd.name sd.entries, rfl, rfl⟩

theorem create_image_lists_good (fs : FileSystem) (image_dir : String) (p : ℚ)
    (d : ImageDict) (hok : create_image_lists fs image_dir p = Except.ok d)
    (lbl : String) (cl : ClassLists) (hmem : (lbl, cl) ∈ d) :
    GoodEntry p (lbl, cl) := by
  have hd : d = fs.subDirs.foldl (processSubDir image_dir p) [] := by
    unfold create_image_lists at hok
    by_cases h : fs.isDir
    · simp [h] at hok; exact hok.symm
    · simp [h] at hok
  subst hd
  exact foldl_processSubDir_good image_dir p fs.subDirs [] (by simp) (lbl, cl) hmem

/-! ### Claim theorems on the dataset indexer -/

/-- C1: for every filename and every validation percentage `p`, each class
produced by `create_image_lists` is split from its discovered file list by
the SHA-1 rule: hash the UTF-8 bytes of the bare filename, read the hex
digest as an integer, reduce it modulo `MAX_NUM_IMAGES_PER_CLASS + 1`, scale
by `100 / MAX_NUM_IMAGES_PER_CLASS` (this is `hash_pct`), and place the file
in the validation list exactly when that percentage is strictly below `p`,
otherwise in the training list. -/
theorem create_image_lists_partition_rule
    (fs : FileSystem) (image_dir : String) (p : ℚ) (d : ImageDict)
    (hok : create_image_lists fs image_dir p = Except.ok d)
    (lbl : String) (cl : ClassLists) (hmem : (lbl, cl) ∈ d) :
    ∃ file_list : List String,
      cl.training = (splitFiles p file_list).1 ∧
      cl.validation = (splitFiles p file_list).2 ∧
      ∀ f ∈ file_list,
        (basename f ∈ cl.validation ↔ hash_pct (basename f) < p) ∧
        (basename f ∈ cl.training ↔ ¬ hash_pct (basename f) < p) := by
  obtain ⟨fl, htr, hva⟩ := create_image_lists_good fs image_dir p d hok lbl cl hmem
  refine ⟨fl, htr, hva, fun f hf => ⟨⟨fun hb => ?_, fun h => ?_⟩, ⟨fun hb => ?_, fun h => ?_⟩⟩⟩
  · rw [hva] at hb; exact splitFiles_validation_lt p fl _ hb
  · rw [hva]; exact (splitFiles_mem_of_mem p fl f hf).1 h
  · rw [htr] at hb; exact splitFiles_training_not_lt p fl _ hb
  · rw [htr]; exact (splitFiles_mem_of_mem p fl f hf).2 h

set_option maxRecDepth 100000 in
unseal Rat.mul Rat.inv in
/-- Witness for C1 at a concrete filesystem: one class directory `Cats` with
files `cat1.jpg` (hash percentage ≈ 61.3, training) and `cat2.jpg`
(≈ 9.63, validation) at `validation_pct = 10`. -/
theorem create_image_lists_partition_rule_witness :
    ∃ file_list : List String,
      (ClassLists.mk "Cats" ["cat1.jpg"] ["cat2.jpg"]).training =
        (splitFiles 10 file_list).1 ∧
      (ClassLists.mk "Cats" ["cat1.jpg"] ["cat2.jpg"]).validation =
        (splitFiles 10 file_list).2 ∧
      ∀ f ∈ file_list,
        (basename f ∈ (ClassLists.mk "Cats" ["cat1.jpg"] ["cat2.jpg"]).validation ↔
          hash_pct (basename f) < 10) ∧
        (basename f ∈ (ClassLists.mk "Cats" ["cat1.jpg"] ["cat2.jpg"]).training ↔
          ¬ hash_pct (basename f) < 10) :=
  create_image_lists_partition_rule
    ⟨true, [⟨"Cats", ["cat1.jpg", "cat2.jpg", "notes.txt"]⟩]⟩ "root" 10
    [("cats", ClassLists.mk "Cats" ["cat1.jpg"] ["cat2.jpg"])]
    (by rfl) "cats" (ClassLists.mk "Cats" ["cat1.jpg"] ["cat2.jpg"])
    (by decide)

/-- C2: for every class produced by `create_image_lists`, no base name
appears in both the class's training list and its validation list. -/
theorem create_image_lists_no_overlap
    (fs : FileSystem) (image_dir : String) (p : ℚ) (d : ImageDict)
    (hok : create_image_lists fs image_dir p = Except.ok d)
    (lbl : String) (cl : ClassLists) (hmem : (lbl, cl) ∈ d) (b : String) :
    ¬ (b ∈ cl.training ∧ b ∈ cl.validation) := by
  rintro ⟨htr, hva⟩
  obtain ⟨fl, etr, eva⟩ := create_image_lists_good fs image_dir p d hok lbl cl hmem
  rw [etr] at htr
  rw [eva] at hva
  exact splitFiles_training_not_lt p fl b htr (splitFiles_validation_lt p fl b hva)

set_option maxRecDepth 100000 in
unseal Rat.mul Rat.inv in
/-- Witness for C2 at the concrete filesystem of the C1 witness. -/
theorem create_image_lists_no_overlap_witness :
    ¬ ("cat1.jpg" ∈ (ClassLists.mk "Cats" ["cat1.jpg"] ["cat2.jpg"]).training ∧
       "cat1.jpg" ∈ (ClassLists.mk "Cats" ["cat1.jpg"] ["cat2.jpg"]).validation) :=
  create_image_lists_no_overlap
    ⟨true, [⟨"Cats", ["cat1.jpg", "cat2.jpg", "notes.txt"]⟩]⟩ "root" 10
    [("cats", ClassLists.mk "Cats" ["cat1.jpg"] ["cat2.jpg"])]
    (by rfl) "cats" (ClassLists.mk "Cats" ["cat1.jpg"] ["cat2.jpg"])
    (by decide) "cat1.jpg"

/-- Each `hasSuffix` gives the reversed-prefix equation. -/
theorem hasSuffix_eq_take {suf l : List Char} (h : hasSuffix suf l = true) :
    l.reverse.take suf.length = suf.reverse := by
  unfold hasSuffix at h
  simpa using h

/-- Two suffix patterns whose shorter one does not match the tail of the
longer one cannot both match the same list. -/
theorem hasSuffix_exclusive {s1 s2 l : List Char} (hlen : s1.length ≤ s2.length)
    (hne : s2.reverse.take s1.length ≠ s1.reverse)
    (h1 : hasSuffix s1 l = true) (h2 : hasSuffix s2 l = true) : False := by
  apply hne
  calc s2.reverse.take s1.length
      = (l.reverse.take s2.length).take s1.length := by rw [hasSuffix_eq_take h2]
    _ = l.reverse.take (min s1.length s2.length) := by rw [List.take_take]
    _ = l.reverse.take s1.length := by rw [min_eq_left hlen]
    _ = s1.reverse := hasSuffix_eq_take h1

/-- No filename matches the glob patterns of two distinct accepted
extensions (the four suffixes `.jpg`, `.jpeg`, `.JPG`, `.JPEG` are mutually
exclusive, case-sensitively). -/
theorem globMatch_exclusive {e ext1 ext2 : String}
    (h1 : ext1 ∈ VALID_IMAGE_FORMATS) (h2 : ext2 ∈ VALID_IMAGE_FORMATS)
    (hne : ext1 ≠ ext2)
    (g1 : globMatch ext1 e = true) (g2 : globMatch ext2 e = true) : False := by
  unfold globMatch at g1 g2
  rw [Bool.and_eq_true] at g1 g2
  have s1 := g1.2
  have s2 := g2.2
  simp only [VALID_IMAGE_FORMATS, List.mem_cons, List.not_mem_nil, or_false] at h1 h2
  rcases h1 with rfl | rfl | rfl | rfl <;> rcases h2 with rfl | rfl | rfl | rfl <;>
    first
      | exact hne rfl
      | exact hasSuffix_exclusive (by decide) (by decide) s1 s2
      | exact hasSuffix_exclusive (by decide) (by decide) s2 s1

theorem string_append_left_cancel {a b c : String} (h : a ++ b = a ++ c) : b = c := by
  have hd := congrArg String.data h
  simp only [String.data_append] at hd
  exact String.ext (List.append_cancel_left hd)

/-- C8: for every class directory, the collected `file_list` over the
accepted extensions (`jpg`, `jpeg`, `JPG`, `JPEG`, case-sensitive) contains
no duplicate entries, and each directory entry matching one of the accepted
glob patterns contributes exactly one element to the list used for
partitioning. -/
theorem fileListFor_nodup (image_dir dir_name : String) (entries : List String)
    (hnd : entries.Nodup) :
    (fileListFor image_dir dir_name entries).Nodup ∧
    ∀ e ∈ entries, ∀ ext ∈ VALID_IMAGE_FORMATS, globMatch ext e = true →
      (fileListFor image_dir dir_name entries).count
        ((image_dir ++ "/" ++ dir_name ++ "/") ++ e) = 1 := by
  have hinj : Function.Injective
      fun e : String => (image_dir ++ "/" ++ dir_name ++ "/") ++ e :=
    fun e1 e2 h => string_append_left_cancel h
  have hnodup : (fileListFor image_dir dir_name entries).Nodup := by
    unfold fileListFor
    rw [List.nodup_flatMap]
    refine ⟨fun ext _ => (hnd.filter _).map hinj, ?_⟩
    refine List.Nodup.pairwise_of_forall_ne (by decide) ?_
    intro ext1 hm1 ext2 hm2 hne x hx1 hx2
    obtain ⟨e1, he1, rfl⟩ := List.mem_map.mp hx1
    obtain ⟨e2, he2, heq⟩ := List.mem_map.mp hx2
    have he : e2 = e1 := string_append_left_cancel heq
    subst he
    exact globMatch_exclusive hm1 hm2 hne
      (List.of_mem_filter he1) (List.of_mem_filter he2)
  refine ⟨hnodup, fun e he ext hext hmatch => List.count_eq_one_of_mem hnodup ?_⟩
  unfold fileListFor
  rw [List.mem_flatMap]
  exact ⟨ext, hext, List.mem_map_of_mem _ (List.mem_filter.mpr ⟨he, hmatch⟩)⟩

/-- Witness for C8 on a concrete directory listing with all four accepted
extensions plus a non-matching entry. -/
theorem fileListFor_nodup_witness :
    (fileListFor "root" "Cats"
        ["cat1.jpg", "cat2.jpeg", "cat3.JPG", "cat4.JPEG", "notes.txt"]).Nodup ∧
    ∀ e ∈ ["cat1.jpg", "cat2.jpeg", "cat3.JPG", "cat4.JPEG", "notes.txt"],
      ∀ ext ∈ VALID_IMAGE_FORMATS, globMatch ext e = true →
      (fileListFor "root" "Cats"
          ["cat1.jpg", "cat2.jpeg", "cat3.JPG", "cat4.JPEG", "notes.txt"]).count
        (("root" ++ "/" ++ "Cats" ++ "/") ++ e) = 1 :=
  fileListFor_nodup "root" "Cats"
    ["cat1.jpg", "cat2.jpeg", "cat3.JPG", "cat4.JPEG", "notes.txt"] (by decide)

/-- C4: when the root path is not a directory (`os.path.isdir` false, which
covers both a missing path and a non-directory), `create_image_lists` fails
with the missing-root error of the spec's taxonomy (`NotFoundError`, raised
by the source as `ValueError("Image directory {} not found.")`) and returns
no image lists. -/
theorem create_image_lists_missing_root
    (fs : FileSystem) (image_dir : String) (p : ℚ) (h : fs.isDir = false) :
    create_image_lists fs image_dir p =
      Except.error (ToolsError.notFound
        ("Image directory " ++ image_dir ++ " not found.")) := by
  unfold create_image_lists
  rw [h]
  rfl

/-- Witness for C4 at a concrete missing root. -/
theorem create_image_lists_missing_root_witness :
    create_image_lists ⟨false, []⟩ "no_such_dir" 10 =
      Except.error (ToolsError.notFound
        ("Image directory " ++ "no_such_dir" ++ " not found.")) :=
  create_image_lists_missing_root ⟨false, []⟩ "no_such_dir" 10 rfl

/-! ### Configuration identifier builder: `Config` -/

/-- A Python scalar as it occurs in configuration fields.  A float carries
the decimal text that `str(·)` renders for it (the identifier builder only
ever stringifies floats, never computes with them). -/
inductive Scalar where
  | pyBool (b : Bool)
  | pyInt (n : Int)
  | pyFloat (text : String)
  | pyStr (s : String)
deriving DecidableEq, Repr

/-- A configuration attribute value: a scalar, a `list`/`tuple` of scalars,
a nested `Config` (its kwargs, in insertion order), or a value of any other
type (rejected by `_process_attr`). -/
inductive Attr where
  | scalar (s : Scalar)
  | seq (elems : List Scalar)
  | config (kwargs : List (String × Attr))
  | other
deriving Repr

/-- Python `str(·)` on scalars: `str(True) = "True"`, `str(False) = "False"`,
integers in decimal, floats and strings as their text. -/
def pyStrScalar : Scalar → String
  | Scalar.pyBool true => "True"
  | Scalar.pyBool false => "False"
  | Scalar.pyInt n => toString n
  | Scalar.pyFloat t => t
  | Scalar.pyStr s => s

/-- Python `str(attr)` where the `_process_attr` branch guards guarantee `attr` is
a scalar (the default is never reached under those guards). -/
def str_of : Attr → String
  | Attr.scalar s => pyStrScalar s
  | _ => ""

/-- Python `isinstance(attr, (int, float, str))`.  Note that `bool` is a
subclass of `int` in Python, so booleans satisfy this check. -/
def isinstance_int_float_str : Attr → Bool
  | Attr.scalar (Scalar.pyInt _) => true
  | Attr.scalar (Scalar.pyFloat _) => true
  | Attr.scalar (Scalar.pyStr _) => true
  | Attr.scalar (Scalar.pyBool _) => true
  | _ => false

/-- Python `isinstance(attr, (list, tuple))`. -/
def isinstance_list_tuple : Attr → Bool
  | Attr.seq _ => true
  | _ => false

/-- Python `isinstance(attr, bool)`. -/
def isinstance_bool : Attr → Bool
  | Attr.scalar (Scalar.pyBool _) => true
  | _ => false

/-- The identifier-rendering errors: `AttributeError` (no `is_main`
attribute) and `TypeError` (`'Wrong dtype.'`, or `self.scope + "_"` on a
non-string scope). -/
inductive PyErr where
  | attributeError
  | typeError
deriving DecidableEq, Repr

/-- The renderer `Config._process_attr`, with the source's branch order: because
Python's `bool` is a subclass of `int`, the first branch already captures
booleans (rendering `str(True) = "True"`), and the
`elif isinstance(attr, bool)` branch below it is unreachable dead code; it
is mirrored here faithfully. -/
def process_attr (attr : Attr) : Except PyErr String :=
  if isinstance_int_float_str attr then
    Except.ok (str_of attr)
  else if isinstance_list_tuple attr then
    Except.ok ("x".intercalate
      (match attr with
       | Attr.seq es => es.map pyStrScalar
       | _ => []))
  else if isinstance_bool attr then
    Except.ok
      (match attr with
       | Attr.scalar (Scalar.pyBool b) =>
           (if b then "YES" else "NO") ++ pyStrScalar (Scalar.pyBool b)
       | _ => "")
  else Except.error PyErr.typeError

/-- Lexicographic code-point comparison of char lists (Python `str <`). -/
def charListLt : List Char → List Char → Bool
  | [], [] => false
  | [], _ :: _ => true
  | _ :: _, [] => false
  | a :: as, b :: bs =>
    if a.toNat < b.toNat then true
    else if b.toNat < a.toNat then false
    else charListLt as bs

/-- Python `a <= b` on strings: code-point lexicographic order. -/
def strLe (a b : String) : Bool := !(charListLt b.data a.data)

/-- Stable insertion into a name-sorted kwargs list. -/
def insertByName (x : String × Attr) : List (String × Attr) → List (String × Attr)
  | [] => [x]
  | y :: rest => if strLe x.1 y.1 then x :: y :: rest else y :: insertByName x rest

/-- Python `sorted(kwargs.items())`: ascending by field name (names are unique
dict keys). -/
def sortByName : List (String × Attr) → List (String × Attr)
  | [] => []
  | x :: rest => insertByName x (sortByName rest)

/-- The helper `_get_fields(attr)`: for a nested `Config`, its attribute values in
ascending name order (one level only, as in the source); otherwise the
attribute itself.  (A nested config constructed with its own `scope` would
additionally expose `is_main`/`identifier_fields` in `__dict__`; the claims
only involve plain nested configs.) -/
def get_fields : Attr → List Attr
  | Attr.config kwargs => (sortByName kwargs).map Prod.snd
  | a => [a]

/-- A `Config(**kwargs)`: the keyword arguments in insertion order
(a Python dict with unique keys).  `is_main` and `identifier_fields` are
set by `__init__` iff a `scope` key is present; they are recomputed from
`kwargs` on demand below. -/
structure Config where
  kwargs : List (String × Attr)
deriving Repr

/-- The list `self.identifier_fields`: `_get_fields` of every non-`scope` kwarg in
ascending name order, concatenated (`sum(fields, [])`). -/
def identifier_fields (c : Config) : List Attr :=
  ((sortByName c.kwargs).filter fun kv => !(kv.1 == "scope")).flatMap
    fun kv => get_fields kv.2

/-- Python `getattr(self, name)` on the stored kwargs. -/
def getattrOf (c : Config) (name : String) : Option Attr :=
  (c.kwargs.find? fun kv => kv.1 == name).map Prod.snd

/-- The `identifier` property.  The guard `if self.is_main` raises
`AttributeError` when the config was built without a `scope` kwarg (the
`is_main` attribute is then missing); `self.scope + "_"` needs the scope to
be a string (a non-string scope would make Python's `+` raise a
`TypeError`); a `TypeError` from `_process_attr` propagates out of the
`"_".join` generator. -/
def identifier (c : Config) : Except PyErr String :=
  if c.kwargs.any fun kv => kv.1 == "scope" then
    match getattrOf c "scope" with
    | some (Attr.scalar (Scalar.pyStr scope)) => do
        let fields ← (identifier_fields c).mapM process_attr
        return scope ++ "_" ++ "_".intercalate fields
    | _ => Except.error PyErr.typeError
  else Except.error PyErr.attributeError

/-- The spec's worked example: scope `"run"`, a nested config field `aug`
holding the boolean `aug=True`, and sibling scalars `epochs=10`,
`lr=0.01` (fields visited in name order `aug`, `epochs`, `lr`). -/
def exampleRunConfig : Config :=
  ⟨[("scope", Attr.scalar (Scalar.pyStr "run")),
    ("aug", Attr.config [("aug", Attr.scalar (Scalar.pyBool true))]),
    ("epochs", Attr.scalar (Scalar.pyInt 10)),
    ("lr", Attr.scalar (Scalar.pyFloat "0.01"))]⟩

/-- C3 (refuted by the code — code bug): the claim says a boolean field is
rendered as `"YES"`/`"NO"` concatenated with the boolean's literal form, so
the worked example would yield `"run_YESTrue_10_0.01"`.  In the source,
`isinstance(attr, (int, float, str))` already captures booleans because
Python's `bool` subclasses `int`, so the `YES`/`NO` branch is unreachable
and the example renders as `"run_True_10_0.01"`: the boolean is rendered as
`str(True)` with no `YES` prefix. -/
theorem config_identifier_bool_rendering :
    process_attr (Attr.scalar (Scalar.pyBool true)) = Except.ok "True" ∧
    identifier exampleRunConfig = Except.ok "run_True_10_0.01" ∧
    identifier exampleRunConfig ≠ Except.ok "run_YESTrue_10_0.01" := by
  refine ⟨rfl, rfl, fun h => ?_⟩
  have h1 : identifier exampleRunConfig = Except.ok "run_True_10_0.01" := rfl
  rw [h1] at h
  exact absurd (Except.ok.inj h) (by decide)

/-- C9: accessing `identifier` on a `Config` constructed without a `scope`
keyword argument fails with an attribute-access error (`AttributeError`,
from the missing `is_main` attribute); it never returns a string. -/
theorem config_identifier_no_scope (kwargs : List (String × Attr))
    (h : ∀ kv ∈ kwargs, kv.1 ≠ "scope") :
    identifier (Config.mk kwargs) = Except.error PyErr.attributeError := by
  have hany : (kwargs.any fun kv => kv.1 == "scope") = false := by
    rw [List.any_eq_false]
    intro kv hkv
    simpa using h kv hkv
  unfold identifier
  rw [hany]
  rfl

/-- Witness for C9: a config holding only `lr=0.01`. -/
theorem config_identifier_no_scope_witness :
    identifier (Config.mk [("lr", Attr.scalar (Scalar.pyFloat "0.01"))]) =
      Except.error PyErr.attributeError :=
  config_identifier_no_scope [("lr", Attr.scalar (Scalar.pyFloat "0.01"))]
    (by intro kv hkv; rw [List.mem_singleton] at hkv; subst hkv; decide)

/-! ### Learning-rate schedule: `linear_decay` and `lr_scheduler` -/

/-- The ramp `linear_decay(start, end, n_iter, current_iter) =
(end - start)/n_iter*current_iter + start` (exact field arithmetic standing
in for the source's float arithmetic; `end` is renamed `stop`, a Lean
keyword). -/
def linear_decay (start stop n_iter current_iter : ℚ) : ℚ :=
  (stop - start) / n_iter * current_iter + start

/-- The `config.train` fields read by `lr_scheduler`. -/
structure TrainConfig where
  lr_min : ℚ
  lr_max : ℚ
  epochs : Int
deriving DecidableEq, Repr

/-- The schedule `lr_scheduler(current_epoch, config)`, with
`edge = config.train.epochs // 3` (Python floor division) and the source's
guard `if current_epoch < current_epoch`. -/
def lr_scheduler (current_epoch : Int) (train : TrainConfig) : ℚ :=
  let lr_min := train.lr_min
  let lr_max := train.lr_max
  let edge := Int.fdiv train.epochs 3
  if current_epoch < current_epoch then
    linear_decay lr_min lr_max (edge : ℚ) (current_epoch : ℚ)
  else
    linear_decay lr_max lr_min (train.epochs : ℚ) (current_epoch : ℚ)

/-- C6: the guard `current_epoch < current_epoch` of `lr_scheduler`'s first
branch is false for every epoch, so the first branch is unreachable and the
scheduler always returns
`linear_decay(config.train.lr_max, config.train.lr_min,
config.train.epochs, current_epoch)`. -/
theorem lr_scheduler_first_branch_unreachable
    (current_epoch : Int) (train : TrainConfig) :
    ¬ (current_epoch < current_epoch) ∧
    lr_scheduler current_epoch train =
      linear_decay train.lr_max train.lr_min (train.epochs : ℚ)
        (current_epoch : ℚ) := by
  refine ⟨lt_irrefl _, ?_⟩
  unfold lr_scheduler
  rw [if_neg (lt_irrefl current_epoch)]

/-! ### Generator wrapper: `except_catcher` -/

/-- The wrapped generator, as what its `n`-th `next(gen)` call does:
yield a value or raise an exception (carrying its message). -/
abbrev Producer (α : Type) := Nat → Except String α

/-- One iteration of `except_catcher`'s `while True:` loop, on the state
(number of pulls made, values yielded so far): `next(gen)` is pulled; on
success the value is yielded, on any exception the handler prints
`'Ups! Something wrong!'` and the loop just continues. -/
def catcherStep {α : Type} (gen : Producer α) (s : Nat × List α) : Nat × List α :=
  match gen s.1 with
  | Except.ok data => (s.1 + 1, s.2 ++ [data])
  | Except.error _ => (s.1 + 1, s.2)

/-- The state of `except_catcher(gen)` after `n` loop iterations.  The loop
is `while True`: it never terminates the sequence and never re-raises. -/
def except_catcher {α : Type} (gen : Producer α) : Nat → Nat × List α
  | 0 => (0, [])
  | n + 1 => catcherStep gen (except_catcher gen n)

/-- C5: a producer that raises on its 3rd pull (index 2) and succeeds
otherwise loses only that one value through `except_catcher`: after any
number `n` of pulls, the wrapper has pulled all `n` times (the error neither
propagated nor ended the sequence) and has yielded the values of every
successful pull, in order — the 1st, 2nd, 4th, 5th, ... values. -/
theorem except_catcher_skips_error_pull {α : Type} (gen : Producer α)
    (v : Nat → α) (e : String) (h2 : gen 2 = Except.error e)
    (hok : ∀ i, i ≠ 2 → gen i = Except.ok (v i)) (n : Nat) :
    (except_catcher gen n).1 = n ∧
    (except_catcher gen n).2 = ((List.range n).filter fun i => i != 2).map v := by
  induction n with
  | zero => exact ⟨rfl, rfl⟩
  | succ n ih =>
    obtain ⟨ih1, ih2⟩ := ih
    have hstep : except_catcher gen (n + 1) = catcherStep gen (except_catcher gen n) := rfl
    by_cases hn : n = 2
    · subst hn
      rw [hstep]
      unfold catcherStep
      rw [ih1, h2, ih2]
      refine ⟨rfl, ?_⟩
      have hr : List.range (2 + 1) = List.range 2 ++ [2] := List.range_succ 2
      rw [hr, List.filter_append, List.map_append,
        show List.filter (fun i => i != 2) [2] = [] from rfl,
        List.map_nil, List.append_nil]
    · rw [hstep]
      unfold catcherStep
      rw [ih1, hok n hn, ih2]
      refine ⟨rfl, ?_⟩
      have hfn : List.filter (fun i => i != 2) [n] = [n] := by
        simp [List.filter_cons, hn]
      rw [List.range_succ, List.filter_append, List.map_append, hfn,
        List.map_cons, List.map_nil]

/-- The concrete producer of the spec's robustness test: raises on the 3rd
pull, yields its pull index otherwise. -/
def producerEx : Producer Nat :=
  fun i => if i = 2 then Except.error "Ups" else Except.ok i

/-- Witness for C5: through the wrapper, `producerEx` yields
`[0, 1, 3, 4]` in its first 5 pulls, with all 5 pulls made. -/
theorem except_catcher_skips_error_pull_witness :
    (except_catcher producerEx 5).1 = 5 ∧
    (except_catcher producerEx 5).2 =
      ((List.range 5).filter fun i => i != 2).map (fun i => i) :=
  except_catcher_skips_error_pull producerEx (fun i => i) "Ups" rfl
    (fun i hi => by unfold producerEx; rw [if_neg hi]) 5

/-! ### Batch iterator: `ImageListIterator` and `get_image_path` -/

/-- Setting `batch_y[i, label] = 1.` over an `np.zeros` row of width `num_class`:
the categorical label row produced for one sample (0/1 naturals standing in
for the float `0.`/`1.` cells). -/
def onehotRow (num_class label : Nat) : List Nat :=
  (List.replicate num_class 0).set label 1

/-- The `class_mode == 'categorical'` branch of `ImageListIterator.next`:
`batch_y = np.zeros((len(batch_x), self.num_class))`, then
`batch_y[i, label] = 1.` where `label` runs over
`self.classes[index_array]` (numpy fancy indexing: `self.classes[j]` for
each `j` drawn from `index_array`). -/
def batch_y_categorical (classes : List Nat) (num_class : Nat)
    (index_array : List Nat) : List (List Nat) :=
  index_array.map fun j => onehotRow num_class (classes.getD j 0)

/-- C7: in `"categorical"` class mode every produced label row has exactly
one entry equal to 1, located at the class index recorded in `self.classes`
for the sample the row was built from, and every other entry equal to 0
(given that the recorded class indices are below `num_class`, as the
constructor guarantees). -/
theorem batch_y_categorical_onehot (classes : List Nat) (num_class : Nat)
    (index_array : List Nat)
    (hbound : ∀ j ∈ index_array, classes.getD j 0 < num_class) :
    ∀ row ∈ batch_y_categorical classes num_class index_array,
      ∃ j ∈ index_array,
        row = onehotRow num_class (classes.getD j 0) ∧
        row.length = num_class ∧
        row.getD (classes.getD j 0) 0 = 1 ∧
        ∀ k < num_class, k ≠ classes.getD j 0 → row.getD k 0 = 0 := by
  intro row hrow
  obtain ⟨j, hj, rfl⟩ := List.mem_map.mp hrow
  have hlab := hbound j hj
  simp only [onehotRow]
  have hlen : ((List.replicate num_class 0).set (classes.getD j 0) 1).length
      = num_class := by simp
  refine ⟨j, hj, rfl, hlen, ?_, ?_⟩
  · rw [List.getD_eq_getElem _ _ (by rw [hlen]; exact hlab)]
    exact List.getElem_set_self _
  · intro k hk hne
    rw [List.getD_eq_getElem _ _ (by rw [hlen]; exact hk)]
    rw [List.getElem_set_ne (Ne.symm hne)]
    exact List.getElem_replicate _ _

/-- Witness for C7: two classes, `classes = [0, 1, 1]`,
`index_array = [0, 2]`, checked at the batch's second row
`onehotRow 2 1 = [0, 1]`. -/
theorem batch_y_categorical_onehot_witness :
    ∃ j ∈ [0, 2],
      onehotRow 2 1 = onehotRow 2 (List.getD [0, 1, 1] j 0) ∧
      (onehotRow 2 1).length = 2 ∧
      (onehotRow 2 1).getD (List.getD [0, 1, 1] j 0) 0 = 1 ∧
      ∀ k < 2, k ≠ List.getD [0, 1, 1] j 0 → (onehotRow 2 1).getD k 0 = 0 :=
  batch_y_categorical_onehot [0, 1, 1] 2 [0, 2] (by decide) (onehotRow 2 1)
    (by decide)

/-- The category selector (the source passes the strings
`'training'`/`'validation'` as dict keys into each label's lists; the
modelled `ClassLists` carries exactly those two list fields). -/
inductive Category where
  | training
  | validation
deriving DecidableEq, Repr

/-- Lookup `label_lists[category]`. -/
def catList (cl : ClassLists) : Category → List String
  | Category.training => cl.training
  | Category.validation => cl.validation

/-- Python dict lookup `image_lists[label_name]` on the association list. -/
def dictFind? : ImageDict → String → Option ClassLists
  | [], _ => none
  | (k, v) :: rest, lbl => if k == lbl then some v else dictFind? rest lbl

/-- Dict lookup of a key known to be present (the constructor only ever
looks up keys taken from the dict itself, so the default is never used). -/
def dictFindD (d : ImageDict) (lbl : String) : ClassLists :=
  (dictFind? d lbl).getD ⟨"", [], []⟩

/-- Assignment into the dict built by
`dict(zip(classes, range(len(classes))))` (later pairs overwrite). -/
def natDictInsert : List (String × Nat) → String → Nat → List (String × Nat)
  | [], k, v => [(k, v)]
  | (k', v') :: rest, k, v =>
      if k' = k then (k, v) :: rest else (k', v') :: natDictInsert rest k v

/-- Lookup in the `class2id` dict. -/
def natDictFind? : List (String × Nat) → String → Option Nat
  | [], _ => none
  | (k, v) :: rest, lbl => if k == lbl then some v else natDictFind? rest lbl

/-- The dict `self.class2id = dict(zip(classes, range(len(classes))))`. -/
def class2id (classes : List String) : List (String × Nat) :=
  classes.enum.foldl (fun d iv => natDictInsert d iv.2 iv.1) []

/-- The resolver `get_image_path(image_lists, label_name, index, image_dir, category)`:
label lookup (`ValueError` if absent; the modelled `ClassLists` always
carries both category keys, so the source's `category not in label_lists`
check cannot fire), `ValueError` on an empty category list, else the path
`image_dir/sub_dir/base_name` of the entry at
`index % len(category_list)`. -/
def get_image_path (image_lists : ImageDict) (label_name : String)
    (index : Nat) (image_dir : String) (category : Category) :
    Except String String :=
  match dictFind? image_lists label_name with
  | none => Except.error "Label does not exist"
  | some label_lists =>
      let category_list := catList label_lists category
      if category_list.isEmpty then
        Except.error "Label has no images in the category."
      else
        let mod_index := index % category_list.length
        let base_name := category_list.getD mod_index ""
        Except.ok ((image_dir ++ "/" ++ label_lists.dir ++ "/") ++ base_name)

/-- The index state built by `ImageListIterator.__init__`. -/
structure IterState where
  samples : Nat
  classes : List Nat
  filenames : List String
  num_class : Nat
deriving DecidableEq, Repr

/-- The index-building part of `ImageListIterator.__init__`: count the
selected category's entries over all labels (`how_many_files`), then, label
by label in dict order and entry by entry, set `self.classes[i]` to
`self.class2id[label_name]` and append `get_image_path(...)` to
`self.filenames`.  (The image-shape/color-mode/save-to-dir plumbing of the
constructor does not touch these fields; inside the loop `get_image_path`
never raises — its `Except` is unwrapped with a dummy default.) -/
def iter_init (image_lists : ImageDict) (category : Category)
    (image_dir : String) : IterState :=
  let classes_keys := image_lists.map Prod.fst
  let how_many_files := classes_keys.foldl
    (fun acc lbl => acc + (catList (dictFindD image_lists lbl) category).length) 0
  let c2id := class2id classes_keys
  let entries := classes_keys.flatMap fun lbl =>
    (List.range (catList (dictFindD image_lists lbl) category).length).map fun j =>
      ((natDictFind? c2id lbl).getD 0,
       (get_image_path image_lists lbl j image_dir category).toOption.getD "")
  { samples := how_many_files
    classes := entries.map Prod.fst
    filenames := entries.map Prod.snd
    num_class := classes_keys.length }

/-! ### Lemmas for the iterator constructor invariant -/

theorem dictFind?_of_mem :
    ∀ {d : ImageDict}, (d.map Prod.fst).Nodup →
      ∀ {e : String × ClassLists}, e ∈ d → dictFind? d e.1 = some e.2 := by
  intro d
  induction d with
  | nil => intro _ e he; simp at he
  | cons x rest ih =>
    intro hnd e he
    obtain ⟨k, v⟩ := x
    rw [List.map_cons, List.nodup_cons] at hnd
    rcases List.mem_cons.mp he with rfl | he
    · simp [dictFind?]
    · have hk : k ≠ e.1 := by
        intro hkk
        apply hnd.1
        rw [hkk]
        exact List.mem_map.mpr ⟨e, he, rfl⟩
      simp only [dictFind?]
      rw [if_neg (by simpa using hk)]
      exact ih hnd.2 he

theorem foldl_add_length {α : Type} (f : α → Nat) :
    ∀ (l : List α) (acc : Nat),
      l.foldl (fun a x => a + f x) acc = acc + (l.map f).sum := by
  intro l
  induction l with
  | nil => intro acc; simp
  | cons x rest ih =>
    intro acc
    rw [List.foldl_cons, ih, List.map_cons, List.sum_cons, Nat.add_assoc]

theorem flatMap_congr {α β : Type} {l : List α} {f g : α → List β}
    (h : ∀ a ∈ l, f a = g a) : l.flatMap f = l.flatMap g := by
  induction l with
  | nil => rfl
  | cons x rest ih =>
    rw [List.flatMap_cons, List.flatMap_cons, h x (List.mem_cons_self x rest),
      ih fun a ha => h a (List.mem_cons_of_mem x ha)]

theorem range_map_const {β : Type} (n : Nat) (c : β) :
    (List.range n).map (fun _ => c) = List.replicate n c := by
  apply List.ext_getElem
  · simp
  · intro i h1 h2
    simp

theorem get_image_path_eval (image_lists : ImageDict) (label_name : String)
    (index : Nat) (image_dir : String) (category : Category)
    (cl : ClassLists) (hfind : dictFind? image_lists label_name = some cl)
    (hne : (catList cl category).isEmpty = false) :
    get_image_path image_lists label_name index image_dir category =
      Except.ok ((image_dir ++ "/" ++ cl.dir ++ "/") ++
        (catList cl category).getD (index % (catList cl category).length) "") := by
  unfold get_image_path
  rw [hfind]
  simp only [hne, Bool.false_eq_true, if_false]

/-- C10: after `ImageListIterator.__init__`, `samples` equals the sum over
all labels of the number of entries in that label's list for the selected
category, `filenames` has exactly `samples` entries, and the `classes` and
`filenames` arrays consist of per-label contiguous blocks in the order the
labels occur in `image_lists`: each label contributes its `class2id` index
once per file, aligned with the block of that label's file paths. -/
theorem iter_init_invariant (image_lists : ImageDict) (category : Category)
    (image_dir : String) (hkeys : (image_lists.map Prod.fst).Nodup) :
    (iter_init image_lists category image_dir).samples
        = (image_lists.map fun e => (catList e.2 category).length).sum ∧
    (iter_init image_lists category image_dir).filenames.length
        = (iter_init image_lists category image_dir).samples ∧
    (iter_init image_lists category image_dir).classes
        = (image_lists.flatMap fun e =>
            List.replicate (catList e.2 category).length
              ((natDictFind? (class2id (image_lists.map Prod.fst)) e.1).getD 0)) ∧
    (iter_init image_lists category image_dir).filenames
        = (image_lists.flatMap fun e =>
            (catList e.2 category).map fun b =>
              (image_dir ++ "/" ++ e.2.dir ++ "/") ++ b) := by
  have hfindD : ∀ e ∈ image_lists, dictFindD image_lists e.1 = e.2 := by
    intro e he
    unfold dictFindD
    rw [dictFind?_of_mem hkeys he]
    rfl
  have hsamples : (iter_init image_lists category image_dir).samples
      = (image_lists.map fun e => (catList e.2 category).length).sum := by
    show (image_lists.map Prod.fst).foldl
        (fun acc lbl => acc + (catList (dictFindD image_lists lbl) category).length) 0
      = (image_lists.map fun e => (catList e.2 category).length).sum
    rw [foldl_add_length, Nat.zero_add, List.map_map]
    refine congrArg List.sum (List.map_congr_left fun e he => ?_)
    show (catList (dictFindD image_lists e.1) category).length = _
    rw [hfindD e he]
  have hclasses : (iter_init image_lists category image_dir).classes
      = (image_lists.flatMap fun e =>
          List.replicate (catList e.2 category).length
            ((natDictFind? (class2id (image_lists.map Prod.fst)) e.1).getD 0)) := by
    show (((image_lists.map Prod.fst).flatMap fun lbl =>
        (List.range (catList (dictFindD image_lists lbl) category).length).map fun j =>
          ((natDictFind? (class2id (image_lists.map Prod.fst)) lbl).getD 0,
           (get_image_path image_lists lbl j image_dir category).toOption.getD "")).map
        Prod.fst)
      = (image_lists.flatMap fun e =>
          List.replicate (catList e.2 category).length
            ((natDictFind? (class2id (image_lists.map Prod.fst)) e.1).getD 0))
    rw [List.map_flatMap, List.flatMap_map]
    refine flatMap_congr fun e he => ?_
    show ((List.range (catList (dictFindD image_lists e.1) category).length).map fun j =>
        ((natDictFind? (class2id (image_lists.map Prod.fst)) e.1).getD 0,
         (get_image_path image_lists e.1 j image_dir category).toOption.getD "")).map
        Prod.fst
      = List.replicate (catList e.2 category).length
          ((natDictFind? (class2id (image_lists.map Prod.fst)) e.1).getD 0)
    rw [hfindD e he, List.map_map]
    exact range_map_const (catList e.2 category).length _
  have hpath : ∀ e ∈ image_lists,
      ((List.range (catList (dictFindD image_lists e.1) category).length).map fun j =>
        ((natDictFind? (class2id (image_lists.map Prod.fst)) e.1).getD 0,
         (get_image_path image_lists e.1 j image_dir category).toOption.getD "")).map
        Prod.snd
      = (catList e.2 category).map fun b =>
          (image_dir ++ "/" ++ e.2.dir ++ "/") ++ b := by
    intro e he
    rw [hfindD e he, List.map_map]
    apply List.ext_getElem
    · simp
    · intro i h1 h2
      have hi : i < (catList e.2 category).length := by simpa using h2
      simp only [List.getElem_map, List.getElem_range, Function.comp]
      have hne : (catList e.2 category).isEmpty = false := by
        rw [List.isEmpty_eq_false]
        intro hnil
        rw [hnil] at hi
        simp at hi
      rw [get_image_path_eval image_lists e.1 i image_dir category e.2
        (dictFind?_of_mem hkeys he) hne]
      show (Except.ok ((image_dir ++ "/" ++ e.2.dir ++ "/") ++
          (catList e.2 category).getD (i % (catList e.2 category).length)
            "")).toOption.getD ""
        = (image_dir ++ "/" ++ e.2.dir ++ "/") ++ (catList e.2 category)[i]
      rw [Nat.mod_eq_of_lt hi, List.getD_eq_getElem _ _ hi]
      rfl
  have hfilenames : (iter_init image_lists category image_dir).filenames
      = (image_lists.flatMap fun e =>
          (catList e.2 category).map fun b =>
            (image_dir ++ "/" ++ e.2.dir ++ "/") ++ b) := by
    show (((image_lists.map Prod.fst).flatMap fun lbl =>
        (List.range (catList (dictFindD image_lists lbl) category).length).map fun j =>
          ((natDictFind? (class2id (image_lists.map Prod.fst)) lbl).getD 0,
           (get_image_path image_lists lbl j image_dir category).toOption.getD "")).map
        Prod.snd)
      = (image_lists.flatMap fun e =>
          (catList e.2 category).map fun b =>
            (image_dir ++ "/" ++ e.2.dir ++ "/") ++ b)
    rw [List.map_flatMap, List.flatMap_map]
    exact flatMap_congr hpath
  refine ⟨hsamples, ?_, hclasses, hfilenames⟩
  rw [hfilenames, hsamples, List.length_flatMap]
  refine congrArg List.sum (List.map_congr_left fun e he => ?_)
  simp [Function.comp]

/-- Witness for C10: two classes in the training category. -/
theorem iter_init_invariant_witness :
    (iter_init [("cats", ClassLists.mk "Cats" ["a.jpg"] ["b.jpg"]),
        ("dogs", ClassLists.mk "Dogs" ["c.jpg", "d.jpg"] [])]
      Category.training "root").samples
        = (([("cats", ClassLists.mk "Cats" ["a.jpg"] ["b.jpg"]),
            ("dogs", ClassLists.mk "Dogs" ["c.jpg", "d.jpg"] [])].map
            fun e => (catList e.2 Category.training).length)).sum ∧
    (iter_init [("cats", ClassLists.mk "Cats" ["a.jpg"] ["b.jpg"]),
        ("dogs", ClassLists.mk "Dogs" ["c.jpg", "d.jpg"] [])]
      Category.training "root").filenames.length
        = (iter_init [("cats", ClassLists.mk "Cats" ["a.jpg"] ["b.jpg"]),
            ("dogs", ClassLists.mk "Dogs" ["c.jpg", "d.jpg"] [])]
          Category.training "root").samples ∧
    (iter_init [("cats", ClassLists.mk "Cats" ["a.jpg"] ["b.jpg"]),
        ("dogs", ClassLists.mk "Dogs" ["c.jpg", "d.jpg"] [])]
      Category.training "root").classes
        = ([("cats", ClassLists.mk "Cats" ["a.jpg"] ["b.jpg"]),
            ("dogs", ClassLists.mk "Dogs" ["c.jpg", "d.jpg"] [])].flatMap
            fun e => List.replicate (catList e.2 Category.training).length
              ((natDictFind? (class2id ["cats", "dogs"]) e.1).getD 0)) ∧
    (iter_init [("cats", ClassLists.mk "Cats" ["a.jpg"] ["b.jpg"]),
        ("dogs", ClassLists.mk "Dogs" ["c.jpg", "d.jpg"] [])]
      Category.training "root").filenames
        = ([("cats", ClassLists.mk "Cats" ["a.jpg"] ["b.jpg"]),
            ("dogs", ClassLists.mk "Dogs" ["c.jpg", "d.jpg"] [])].flatMap
            fun e => (catList e.2 Category.training).map fun b =>
              ("root" ++ "/" ++ e.2.dir ++ "/") ++ b) :=
  iter_init_invariant
    [("cats", ClassLists.mk "Cats" ["a.jpg"] ["b.jpg"]),
     ("dogs", ClassLists.mk "Dogs" ["c.jpg", "d.jpg"] [])]
    Category.training "root" (by decide)

end Tools
